import Mathlib

/-!
# Verification of the Perpetua OAuth proxy against its specification

Shallow embedding of the core of the Perpetua transparent OAuth proxy
(token store, cipher envelope handling, proxy forwarder, refresh
scheduler) and proofs of the specified properties.

Sources embedded:
- `src/store/SQLiteStore.ts` (token store: rows of the `connections`
  table, `oauth_states` table, and their operations),
- `src/crypto.ts` (AES-256-GCM envelope: hex encoding, `:` split,
  tag extraction; the GCM keystream/tag primitives of the Node
  `crypto` library are abstracted as a parameter),
- `src/proxy.ts` (refresh trigger, refresh exchange, header
  forwarding),
- `src/refresh.ts` (background refresh loop state),
- `src/auth.ts` (OAuth callback state verification).
-/

namespace Perpetua

/-! ## Token store model (`src/store/SQLiteStore.ts`)

A row of the `connections` table.  `refreshTokenEnc` is the
`refresh_token_encrypted` column (ciphertext as stored); nullable
columns are `Option`. -/

structure Row where
  id : String
  provider : String
  account : String
  refreshTokenEnc : String
  accessToken : Option String
  expiresAt : Option Int
  scopes : Option String
  createdAt : Int
  updatedAt : Int
  deriving Repr, DecidableEq

abbrev Store := List Row

/-- The row-match predicate of the `(provider, account)` key
(`WHERE provider = ? AND account = ?`). -/
def rowKeyMatch (p a : String) (r : Row) : Bool :=
  r.provider == p && r.account == a

/-- `SELECT * FROM connections WHERE provider = ? AND account = ?`
(the lookup of `getToken`). -/
def findRow (s : Store) (p a : String) : Option Row :=
  s.find? (rowKeyMatch p a)

/-- `storeToken` (SQLiteStore.ts lines 100–130):
`INSERT INTO connections ... ON CONFLICT(provider, account) DO UPDATE SET
refresh_token_encrypted, access_token, expires_at, scopes, updated_at = unixepoch()`.
`encryptFn` stands for the Cipher's `encrypt` at the current randomness;
`now` is `unixepoch()`.  On conflict, `id` and `created_at` are untouched. -/
def storeToken (s : Store) (encryptFn : String → String)
    (p a refreshToken : String) (accessToken? : Option String)
    (expiresAt? : Option Int) (scopes? : Option String) (now : Int) : Store :=
  if s.any (rowKeyMatch p a) then
    s.map fun r =>
      if rowKeyMatch p a r then
        { r with refreshTokenEnc := encryptFn refreshToken,
                 accessToken := accessToken?,
                 expiresAt := expiresAt?,
                 scopes := scopes?,
                 updatedAt := now }
      else r
  else
    s ++ [{ id := p ++ ":" ++ a, provider := p, account := a,
            refreshTokenEnc := encryptFn refreshToken,
            accessToken := accessToken?, expiresAt := expiresAt?,
            scopes := scopes?, createdAt := now, updatedAt := now }]

/-- `updateAccessToken` (SQLiteStore.ts lines 191–202):
`UPDATE connections SET access_token = ?, expires_at = ?, updated_at = unixepoch()
WHERE provider = ? AND account = ?`. -/
def updateAccessToken (s : Store) (p a accessToken : String)
    (expiresAt : Int) (now : Int) : Store :=
  s.map fun r =>
    if rowKeyMatch p a r then
      { r with accessToken := some accessToken,
               expiresAt := some expiresAt,
               updatedAt := now }
    else r

/-- `ORDER BY account` comparison used by `getDefaultToken`'s query. -/
def accountInsert (r : Row) : List Row → List Row
  | [] => [r]
  | x :: xs =>
    if r.account < x.account then r :: x :: xs else x :: accountInsert r xs

/-- Insertion sort realizing SQLite's `ORDER BY account`. -/
def sortByAccount : List Row → List Row
  | [] => []
  | x :: xs => accountInsert x (sortByAccount xs)

/-- `getDefaultToken` (SQLiteStore.ts lines 153–189):
`SELECT * FROM connections WHERE provider = ? ORDER BY account`, then
`rows.length === 0 → null`, `rows.length === 1 → rows[0]`, otherwise
`rows.find(r => r.account === 'default')` or `null`. -/
def getDefaultToken (s : Store) (p : String) : Option Row :=
  let rows := sortByAccount (s.filter fun r => r.provider == p)
  if rows.length = 0 then none
  else if rows.length = 1 then rows[0]?
  else rows.find? fun r => r.account == "default"

/-! ### OAuth handshake states (`oauth_states` table) -/

structure OState where
  state : String
  provider : String
  account : String
  createdAt : Int
  deriving Repr, DecidableEq

abbrev OStates := List OState

/-- `SELECT provider, account FROM oauth_states WHERE state = ?`. -/
def findOState (l : OStates) (s : String) : Option OState :=
  l.find? fun o => o.state == s

/-- `consumeOAuthState` (SQLiteStore.ts lines 250–259): select by state;
if absent return `null`; otherwise `DELETE ... WHERE state = ?` and return
the `(provider, account)` binding.  Note: no check of `created_at` — age is
not consulted. -/
def consumeOAuthState (l : OStates) (s : String) :
    Option (String × String) × OStates :=
  match findOState l s with
  | none => (none, l)
  | some o => (some (o.provider, o.account), l.filter fun x => !(x.state == s))

/-- `cleanOAuthStates` (SQLiteStore.ts lines 261–264):
`DELETE FROM oauth_states WHERE created_at < unixepoch() - 600`. -/
def cleanOAuthStates (l : OStates) (now : Int) : OStates :=
  l.filter fun x => !(x.createdAt < now - 600 : Bool)

/-! ## OAuth callback state verification (`src/auth.ts` lines 141–148)

The callback handler consumes the state first and only afterwards checks
the provider binding: `const stateData = await store.consumeOAuthState(state);
if (!stateData || stateData.provider !== provider) → "Invalid or expired
state" error page`. -/

inductive CallbackCheck where
  | invalidState
  | valid (provider account : String)
  deriving Repr, DecidableEq

/-- The state-verification prefix of the `GET /auth/:provider/callback`
handler, returning the outcome together with the `oauth_states` table
after the call. -/
def callbackVerifyState (l : OStates) (reqProvider stateParam : String) :
    CallbackCheck × OStates :=
  let res := consumeOAuthState l stateParam
  match res.1 with
  | none => (.invalidState, res.2)
  | some (p, a) =>
    if p == reqProvider then (.valid p a, res.2) else (.invalidState, res.2)

/-! ## Proxy forwarder (`src/proxy.ts`) -/

structure ProviderConfig where
  base_url : String
  token_url : String
  client_id : String
  client_secret : String
  deriving Repr, DecidableEq

/-- The parsed JSON body of the token endpoint's response together with
its HTTP status; `none` at the call site models a network error
(`fetch` rejecting). -/
structure RefreshHttpResponse where
  status : Nat
  access_token : String
  expires_in : Option Int
  deriving Repr, DecidableEq

/-- `refreshAccessToken` (proxy.ts lines 29–61): form-encoded POST to the
token endpoint; `if (!res.ok) throw`; on success
`expiresAt = now + (data.expires_in ?? 3600)`.  `res.ok` is `fetch`'s
2xx test.  `.error ()` models the thrown exception (network error or
non-2xx). -/
def refreshAccessToken (now : Int) (o : Option RefreshHttpResponse) :
    Except Unit (String × Int) :=
  match o with
  | none => .error ()
  | some res =>
    if 200 ≤ res.status ∧ res.status < 300 then
      .ok (res.access_token, now + res.expires_in.getD 3600)
    else
      .error ()

/-- JS truthiness of a `string | null` value: `null` and `""` are falsy. -/
def jsTruthyStr : Option String → Bool
  | none => false
  | some s => !(s == "")

/-- The refresh trigger of the proxy handler (proxy.ts lines 150–152):
`!tokenRecord.accessToken || (tokenRecord.expiresAt !== null &&
tokenRecord.expiresAt - nowSec < 300)`. -/
def shouldRefresh (accessToken : Option String) (expiresAt : Option Int)
    (nowSec : Int) : Bool :=
  !jsTruthyStr accessToken ||
    (match expiresAt with
     | none => false
     | some e => e - nowSec < 300)

/-- Token resolution of the proxy handler (proxy.ts lines 121–135): an
explicit `?account=` is looked up exactly; otherwise `"default"` is tried
first, then `getDefaultToken`. -/
def resolveTokenRecord (s : Store) (provider : String)
    (accountParam : Option String) : Option (Row × String) :=
  match accountParam with
  | some a => (findRow s provider a).map (·, a)
  | none =>
    match findRow s provider "default" with
    | some r => some (r, "default")
    | none =>
      match getDefaultToken s provider with
      | some r => some (r, r.account)
      | none => none

/-- A header value as found in `request.headers`:
`string | string[] | undefined`. -/
inductive HVal where
  | str (s : String)
  | arr (l : List String)
  | undef
  deriving Repr, DecidableEq

/-- `k.toLowerCase()` on header names (ASCII). -/
def lowerStr (s : String) : String := ⟨s.data.map Char.toLower⟩

/-- `HOP_BY_HOP_HEADERS` (proxy.ts lines 79–90): headers never forwarded
from client to upstream. -/
def HOP_BY_HOP_HEADERS : List String :=
  ["connection", "keep-alive", "proxy-authenticate", "proxy-authorization",
   "te", "trailers", "transfer-encoding", "upgrade", "host", "authorization"]

/-- JS object property assignment `o[k] = v` on an object modelled as an
association list with unique keys (insertion order preserved, existing
key overwritten in place). -/
def objSet (o : List (String × String)) (k v : String) :
    List (String × String) :=
  if o.any fun p => p.1 == k then
    o.map fun p => if p.1 == k then (k, v) else p
  else
    o ++ [(k, v)]

/-- One iteration of the header-copy loop (proxy.ts lines 181–185):
skip excluded names (case-insensitively), copy strings, join arrays
with `", "`, skip `undefined`. -/
def copyHeaderStep (acc : List (String × String)) (kv : String × HVal) :
    List (String × String) :=
  if HOP_BY_HOP_HEADERS.contains (lowerStr kv.1) then acc
  else
    match kv.2 with
    | .str s => objSet acc kv.1 s
    | .arr l => objSet acc kv.1 (String.intercalate ", " l)
    | .undef => acc

/-- `forwardHeaders` construction (proxy.ts lines 180–186): the copy loop
over `Object.entries(request.headers)` followed by
`forwardHeaders['authorization'] = `Bearer ${tokenRecord.accessToken}``. -/
def buildForwardHeaders (inbound : List (String × HVal))
    (accessToken : String) : List (String × String) :=
  objSet (inbound.foldl copyHeaderStep []) "authorization"
    ("Bearer " ++ accessToken)

/-- Outcome of the proxy handler up to the point the request is forwarded
upstream (steps 1–5 of proxy.ts); error outcomes carry the HTTP status
and the machine-readable error kind sent to the caller. -/
inductive ProxyOutcome where
  | errorResponse (status : Nat) (kind : String)
  | forward (headers : List (String × String))
  deriving Repr, DecidableEq

/-- JS template interpolation of a `string | null` value. -/
def jsTemplateStr : Option String → String
  | none => "null"
  | some s => s

/-- Steps 1–5 of the proxy handler (proxy.ts lines 106–186): resolve
provider, resolve token, refresh when needed (persisting via
`updateAccessToken` on success, answering 401 `TokenRefreshFailed` on
failure), and build the forwarded headers.  `fetchOutcome` stands for
the token endpoint's response; the returned store is the `connections`
table after the call. -/
def proxyHandler (registry : String → Option ProviderConfig) (s : Store)
    (provider : String) (accountParam : Option String) (now : Int)
    (fetchOutcome : Option RefreshHttpResponse)
    (inboundHeaders : List (String × HVal)) : ProxyOutcome × Store :=
  match registry provider with
  | none => (.errorResponse 404 "UnknownProvider", s)
  | some _cfg =>
    match resolveTokenRecord s provider accountParam with
    | none => (.errorResponse 404 "NoConnection", s)
    | some (record, account) =>
      if shouldRefresh record.accessToken record.expiresAt now then
        match refreshAccessToken now fetchOutcome with
        | .error _ => (.errorResponse 401 "TokenRefreshFailed", s)
        | .ok (tok, exp) =>
          let record' := { record with accessToken := some tok,
                                       expiresAt := some exp }
          (.forward (buildForwardHeaders inboundHeaders
              (jsTemplateStr record'.accessToken)),
           updateAccessToken s provider account tok exp now)
      else
        (.forward (buildForwardHeaders inboundHeaders
            (jsTemplateStr record.accessToken)), s)

/-! ## Refresh scheduler (`src/refresh.ts` lines 73–95)

The module's only state is the `_timer` handle; `startRefreshLoop` is
guarded by it (`if (_timer) return`), but the interval callback
`() => { void runRefreshCycle(store) }` begins a cycle unconditionally —
no in-flight flag exists.  `inFlight` counts cycles begun and not yet
completed (a cycle suspends at its store and `fetch` awaits, so a later
tick can fire while it is in flight). -/

structure RefreshLoopState where
  timerActive : Bool
  inFlight : Nat
  deriving Repr, DecidableEq

/-- The `setInterval` callback: `void runRefreshCycle(store)` — starts a
new cycle regardless of any cycle still in flight. -/
def intervalTick (st : RefreshLoopState) : RefreshLoopState :=
  { st with inFlight := st.inFlight + 1 }

/-- `startRefreshLoop`: `if (_timer) return;` then one immediate cycle
and the interval is installed. -/
def startRefreshLoop (st : RefreshLoopState) : RefreshLoopState :=
  if st.timerActive then st
  else { timerActive := true, inFlight := st.inFlight + 1 }

/-- A cycle finishing (the promise of `runRefreshCycle` resolving). -/
def cycleFinish (st : RefreshLoopState) : RefreshLoopState :=
  { st with inFlight := st.inFlight - 1 }

/-! ## Cipher (`src/crypto.ts`)

AES-256-GCM with a 12-byte random IV and a 16-byte tag, stored as
`"<iv_hex>:<ciphertext+tag_hex>"`.  Bytes are `Nat` values `< 256`.
The GCM primitives of Node's `crypto` library are abstracted as a
`GcmCore`: GCM is counter-mode, so ciphertext is plaintext XOR a
keystream determined by `(key, iv)`, and the auth tag is a function of
`(key, iv, ciphertext)`; `decrypt` recomputes the tag and compares. -/

/-- Lowercase hex digit, as produced by `Buffer.toString('hex')`. -/
def hexDigitChar (n : Nat) : Char :=
  "0123456789abcdef".data.getD n '0'

/-- Hex digit value accepted by `Buffer.from(..., 'hex')`. -/
def hexDigitVal (c : Char) : Option Nat :=
  if '0' ≤ c ∧ c ≤ '9' then some (c.toNat - 48)
  else if 'a' ≤ c ∧ c ≤ 'f' then some (c.toNat - 87)
  else if 'A' ≤ c ∧ c ≤ 'F' then some (c.toNat - 55)
  else none

def hexEncodeByte (b : Nat) : List Char :=
  [hexDigitChar (b / 16), hexDigitChar (b % 16)]

/-- `Buffer.toString('hex')`. -/
def hexEncode (bs : List Nat) : List Char :=
  (bs.map hexEncodeByte).flatten

/-- One hex pair, as consumed by `Buffer.from(s, 'hex')`. -/
def hexPair (c1 c2 : Char) : Option Nat :=
  match hexDigitVal c1, hexDigitVal c2 with
  | some h, some l => some (16 * h + l)
  | _, _ => none

/-- `Buffer.from(s, 'hex')`: parses hex pairs, stopping at the first
invalid pair or dangling digit. -/
def hexDecode : List Char → List Nat
  | c1 :: c2 :: rest =>
    match hexPair c1 c2 with
    | some b => b :: hexDecode rest
    | none => []
  | _ => []

/-- Prepend a character to the first segment of a split result. -/
def consHead (c : Char) : List (List Char) → List (List Char)
  | [] => [[c]]
  | h :: t => (c :: h) :: t

/-- JS `String.prototype.split(':')` (always returns at least one
segment). -/
def splitOnColon : List Char → List (List Char)
  | [] => [[]]
  | c :: rest =>
    if c = ':' then [] :: splitOnColon rest else consHead c (splitOnColon rest)

/-- UTF-8 encoding of one unicode scalar value. -/
def utf8EncodeChar (n : Nat) : List Nat :=
  if n < 0x80 then [n]
  else if n < 0x800 then [0xC0 + n / 64, 0x80 + n % 64]
  else if n < 0x10000 then
    [0xE0 + n / 4096, 0x80 + n / 64 % 64, 0x80 + n % 64]
  else
    [0xF0 + n / 262144, 0x80 + n / 4096 % 64, 0x80 + n / 64 % 64,
     0x80 + n % 64]

/-- `Buffer.from(s, 'utf8')` on the string's characters. -/
def utf8Encode (cs : List Char) : List Nat :=
  (cs.map fun c => utf8EncodeChar c.toNat).flatten

/-- U+FFFD, emitted by `Buffer.toString('utf8')` for invalid input. -/
def replChar : Char := Char.ofNat 0xFFFD

/-- UTF-8 continuation byte test. -/
def isCont (b : Nat) : Bool := 0x80 ≤ b && b < 0xC0

/-- Scalar value of a 2-byte sequence. -/
def decode2Val (b b1 : Nat) : Nat := (b - 0xC0) * 64 + (b1 - 0x80)

/-- Scalar value of a 3-byte sequence. -/
def decode3Val (b b1 b2 : Nat) : Nat :=
  (b - 0xE0) * 4096 + (b1 - 0x80) * 64 + (b2 - 0x80)

/-- Scalar value of a 4-byte sequence. -/
def decode4Val (b b1 b2 b3 : Nat) : Nat :=
  (b - 0xF0) * 262144 + (b1 - 0x80) * 4096 + (b2 - 0x80) * 64 +
    (b3 - 0x80)

/-- Decode a 2-byte sequence (U+FFFD on a broken continuation; the
`0xC2` lower bound on the lead already excludes overlong forms). -/
def decode2 (b b1 : Nat) : Char :=
  if isCont b1 then Char.ofNat (decode2Val b b1) else replChar

/-- Decode a 3-byte sequence (U+FFFD on broken continuations, overlong
forms and surrogates). -/
def decode3 (b b1 b2 : Nat) : Char :=
  if isCont b1 && isCont b2 then
    if 0x800 ≤ decode3Val b b1 b2 ∧
        ¬(0xD800 ≤ decode3Val b b1 b2 ∧ decode3Val b b1 b2 < 0xE000) then
      Char.ofNat (decode3Val b b1 b2)
    else replChar
  else replChar

/-- Decode a 4-byte sequence (U+FFFD on broken continuations and
out-of-range values). -/
def decode4 (b b1 b2 b3 : Nat) : Char :=
  if isCont b1 && isCont b2 && isCont b3 then
    if 0x10000 ≤ decode4Val b b1 b2 b3 ∧
        decode4Val b b1 b2 b3 < 0x110000 then
      Char.ofNat (decode4Val b b1 b2 b3)
    else replChar
  else replChar

/-- Lead-byte class: 1 = ASCII, 2/3/4 = expected sequence length,
0 = invalid lead byte. -/
def leadClass (b : Nat) : Nat :=
  if b < 0x80 then 1
  else if 0xC2 ≤ b ∧ b ≤ 0xDF then 2
  else if 0xE0 ≤ b ∧ b ≤ 0xEF then 3
  else if 0xF0 ≤ b ∧ b ≤ 0xF4 then 4
  else 0

/-- One step of the lossy UTF-8 decoder: the character produced for the
sequence led by `b` and the undecoded remainder. -/
def utf8Step (b : Nat) (rest : List Nat) : Char × List Nat :=
  if leadClass b = 1 then (Char.ofNat b, rest)
  else if leadClass b = 2 then
    match rest with
    | b1 :: r => (decode2 b b1, r)
    | [] => (replChar, [])
  else if leadClass b = 3 then
    match rest with
    | b1 :: b2 :: r => (decode3 b b1 b2, r)
    | _ => (replChar, [])
  else if leadClass b = 4 then
    match rest with
    | b1 :: b2 :: b3 :: r => (decode4 b b1 b2 b3, r)
    | _ => (replChar, [])
  else (replChar, rest)

/-- A decode step consumes at most the rest of the input. -/
lemma utf8Step_length (b : Nat) (rest : List Nat) :
    (utf8Step b rest).2.length ≤ rest.length := by
  rw [utf8Step.eq_def]
  repeat' split
  all_goals simp_all
  all_goals omega

/-- `Buffer.toString('utf8')`: total decoder, substituting U+FFFD on
invalid sequences (overlong forms, surrogates, out-of-range values,
truncated or broken sequences). -/
def utf8Decode : List Nat → List Char
  | [] => []
  | b :: rest =>
    (utf8Step b rest).1 :: utf8Decode (utf8Step b rest).2
  termination_by l => l.length
  decreasing_by
    have := utf8Step_length b rest
    simp only [List.length_cons]
    omega

/-- The GCM primitives of Node's `crypto` library (counter-mode
keystream and GHASH tag), abstracted with the properties the library
guarantees: the keystream has the requested length and the tag is
16 bytes, both made of bytes. -/
structure GcmCore where
  keystream : List Nat → List Nat → Nat → List Nat
  tag : List Nat → List Nat → List Nat → List Nat
  keystream_length : ∀ key iv n, (keystream key iv n).length = n
  keystream_lt : ∀ key iv n, ∀ b ∈ keystream key iv n, b < 256
  tag_length : ∀ key iv ct, (tag key iv ct).length = 16
  tag_lt : ∀ key iv ct, ∀ b ∈ tag key iv ct, b < 256

/-- Byte-wise XOR (counter-mode combine). -/
def xorBytes (a b : List Nat) : List Nat := List.zipWith (· ^^^ ·) a b

/-- `encrypt` (crypto.ts lines 24–36): UTF-8 encode the plaintext,
GCM-encrypt under `(key, iv)`, append the auth tag, and produce
`"<iv_hex>:<ciphertext+tag_hex>"`.  `iv` is the `randomBytes(12)`
nonce of this call. -/
def encrypt (G : GcmCore) (key iv : List Nat) (plaintext : String) :
    String :=
  let pb := utf8Encode plaintext.data
  let ct := xorBytes pb (G.keystream key iv pb.length)
  ⟨hexEncode iv ++ ':' :: hexEncode (ct ++ G.tag key iv ct)⟩

/-- `Invalid encrypted value format` versus the throw paths of the
`crypto` library (bad IV, failed tag check). -/
inductive DecryptError where
  | format
  | integrity
  deriving Repr, DecidableEq

/-- JS `TypedArray.subarray` start-index semantics: negative indices
count from the end, and the result is clamped into `[0, len]`. -/
def jsSubarrayStart (len : Nat) (i : Int) : Nat :=
  if i < 0 then ((len : Int) + i).toNat else min i.toNat len

/-- `decrypt` (crypto.ts lines 41–59): split on `':'` taking the first
two segments, fail with the format error when either is missing or
empty, hex-decode both, split off the last 16 bytes as the tag
(`subarray` semantics), then let the library decrypt — which throws
(integrity) unless the IV is usable and the recomputed tag matches. -/
def decrypt (G : GcmCore) (key : List Nat) (stored : String) :
    Except DecryptError String :=
  let parts := splitOnColon stored.data
  let ivHex := parts.getD 0 []
  let dataHex := parts.getD 1 []
  if ivHex = [] ∨ dataHex = [] then .error .format
  else
    let iv := hexDecode ivHex
    let data := hexDecode dataHex
    let tagStart := jsSubarrayStart data.length ((data.length : Int) - 16)
    let tg := data.drop tagStart
    let ciphertext := data.take tagStart
    if iv ≠ [] ∧ tg = G.tag key iv ciphertext then
      .ok ⟨utf8Decode
        (xorBytes ciphertext (G.keystream key iv ciphertext.length))⟩
    else .error .integrity

/-- The amended format condition, as the specification words it: the
stored string begins with two non-empty colon-free segments separated by
`':'` (anything after the second segment must start with another `':'`,
i.e. the second segment is complete). -/
def hasTwoNonemptySegments (s : String) : Prop :=
  ∃ a b rest, s.data = a ++ ':' :: (b ++ rest) ∧ a ≠ [] ∧ b ≠ [] ∧
    ':' ∉ a ∧ ':' ∉ b ∧ (rest = [] ∨ ∃ r, rest = ':' :: r)

/-- A trivial `GcmCore` instance (all-zero keystream and tag), used to
evaluate the envelope machinery on concrete inputs. -/
def gcmZero : GcmCore where
  keystream := fun _ _ n => List.replicate n 0
  tag := fun _ _ _ => List.replicate 16 0
  keystream_length := by intro k i n; simp
  keystream_lt := by
    intro k i n b hb
    have := List.eq_of_mem_replicate hb
    omega
  tag_length := by intro k i c; simp
  tag_lt := by
    intro k i c b hb
    have := List.eq_of_mem_replicate hb
    omega

/-- The per-header projection the claim describes: a header survives iff
its name, lowercased, is not in the exclusion set; a surviving string
value is copied and an array value is joined with `", "`; `undefined`
values are dropped. -/
def headerProjection (kv : String × HVal) : Option (String × String) :=
  if HOP_BY_HOP_HEADERS.contains (lowerStr kv.1) then none
  else
    match kv.2 with
    | .str s => some (kv.1, s)
    | .arr l => some (kv.1, String.intercalate ", " l)
    | .undef => none

/-- The forwarded header map as the specification words it: the inbound
headers minus the fixed hop-by-hop exclusion set (matched
case-insensitively), with `authorization` then set to
`Bearer <accessToken>`. -/
def specForwardHeaders (inbound : List (String × HVal)) (tok : String) :
    List (String × String) :=
  inbound.filterMap headerProjection ++
    [("authorization", "Bearer " ++ tok)]

/-- Sample inbound headers (unique names, as JS object keys are). -/
def exHeaders : List (String × HVal) :=
  [("accept", .str "application/json"),
   ("Authorization", .str "Bearer caller-credential"),
   ("x-multi", .arr ["a", "b"]),
   ("connection", .str "keep-alive"),
   ("x-undef", .undef)]

/-- Sample provider registry entry. -/
def exCfg : ProviderConfig :=
  { base_url := "https://api.example", token_url := "https://auth.example/token",
    client_id := "cid", client_secret := "sec" }

def exRegistry : String → Option ProviderConfig :=
  fun p => if p == "oura" then some exCfg else none

/-- A 400 response from the token endpoint. -/
def exBadResp : RefreshHttpResponse :=
  { status := 400, access_token := "x", expires_in := none }

/-- A 200 response from the token endpoint. -/
def exGoodResp : RefreshHttpResponse :=
  { status := 200, access_token := "fresh", expires_in := some 7200 }

/-- Sample row used to evaluate the store operations concretely. -/
def exRow : Row :=
  { id := "oura:daniel", provider := "oura", account := "daniel",
    refreshTokenEnc := "enc-r1", accessToken := some "a1",
    expiresAt := some 100, scopes := some "daily", createdAt := 5,
    updatedAt := 5 }

/-- Sample rows for account resolution: two connections under `oura`. -/
def exRowA : Row :=
  { id := "oura:a", provider := "oura", account := "a",
    refreshTokenEnc := "enc-ra", accessToken := none, expiresAt := none,
    scopes := none, createdAt := 1, updatedAt := 1 }

def exRowDefault : Row :=
  { id := "oura:default", provider := "oura", account := "default",
    refreshTokenEnc := "enc-rd", accessToken := some "ad",
    expiresAt := some 50, scopes := none, createdAt := 2, updatedAt := 2 }

/-- Sample handshake states used to evaluate the operations
concretely. -/
def exState1 : OState :=
  { state := "s1", provider := "oura", account := "daniel",
    createdAt := 0 }

def exState2 : OState :=
  { state := "s2", provider := "gcal", account := "default",
    createdAt := 10 }

def exState3 : OState :=
  { state := "s3", provider := "oura", account := "daniel",
    createdAt := 0 }

/-! ## Store lemmas -/

/-- `find?` over a map that rewrites exactly the rows matched by the same
predicate (the shape of SQL `UPDATE ... WHERE`), provided the rewrite
preserves the predicate. -/
lemma find?_map_upd (s : Store) (q : Row → Bool) (f : Row → Row)
    (hf : ∀ r, q r = true → q (f r) = true) :
    (s.map fun r => if q r then f r else r).find? q = (s.find? q).map f := by
  induction s with
  | nil => rfl
  | cons x xs ih =>
    by_cases h : q x = true
    · simp only [List.map_cons, if_pos h]
      rw [List.find?_cons_of_pos _ (hf x h), List.find?_cons_of_pos _ h]
      rfl
    · simp only [List.map_cons, if_neg h]
      rw [List.find?_cons_of_neg _ h, List.find?_cons_of_neg _ h, ih]

lemma accountInsert_perm (r : Row) (l : List Row) :
    (accountInsert r l).Perm (r :: l) := by
  induction l with
  | nil => exact List.Perm.refl _
  | cons x xs ih =>
    unfold accountInsert
    by_cases h : r.account < x.account
    · rw [if_pos h]
    · rw [if_neg h]
      exact (ih.cons x).trans (List.Perm.swap r x xs)

lemma sortByAccount_perm (l : List Row) : (sortByAccount l).Perm l := by
  induction l with
  | nil => exact List.Perm.refl _
  | cons x xs ih =>
    exact (accountInsert_perm x (sortByAccount xs)).trans (ih.cons x)

/-- `Array.find?`-style uniqueness: when exactly one element satisfies the
account-is-"default" test, `find?` returns it. -/
lemma find?_default_unique (l : List Row) (r : Row) (hmem : r ∈ l)
    (hr : r.account = "default")
    (huniq : ∀ y ∈ l, y.account = "default" → y = r) :
    l.find? (fun x => x.account == "default") = some r := by
  induction l with
  | nil => cases hmem
  | cons x xs ih =>
    by_cases hx : x.account = "default"
    · have hxr : x = r := huniq x (List.mem_cons_self x xs) hx
      rw [List.find?_cons_of_pos _ (by simp [hx]), hxr]
    · rw [List.find?_cons_of_neg _ (by simp [hx])]
      have hmem' : r ∈ xs := by
        rcases List.mem_cons.mp hmem with h | h
        · exact absurd (h ▸ hr) hx
        · exact h
      exact ih hmem' fun y hy => huniq y (List.mem_cons_of_mem x hy)

/-- C6: a second `storeToken` upsert for an existing `(provider, account)`
pair replaces refreshToken/accessToken/expiresAt/scopes and bumps
`updatedAt` but leaves `createdAt` (and id, provider, account) unchanged;
`updateAccessToken` changes only accessToken, expiresAt and updatedAt,
never refreshToken or createdAt.  The frame is expressed by the
`{ r with ... }` record updates. -/
theorem storeToken_updateAccessToken_frame (s : Store) (p a : String)
    (r : Row) (encryptFn : String → String) (rt : String)
    (accessToken? : Option String) (expiresAt? : Option Int)
    (scopes? : Option String) (tok : String) (exp now now2 : Int)
    (h : findRow s p a = some r) :
    findRow (storeToken s encryptFn p a rt accessToken? expiresAt? scopes? now)
        p a =
      some { r with refreshTokenEnc := encryptFn rt,
                    accessToken := accessToken?, expiresAt := expiresAt?,
                    scopes := scopes?, updatedAt := now } ∧
    findRow (updateAccessToken s p a tok exp now2) p a =
      some { r with accessToken := some tok, expiresAt := some exp,
                    updatedAt := now2 } := by
  have hany : s.any (rowKeyMatch p a) = true :=
    List.any_eq_true.mpr ⟨r, List.mem_of_find?_eq_some h, List.find?_some h⟩
  refine ⟨?_, ?_⟩
  · rw [storeToken, if_pos hany, findRow,
      find?_map_upd s (rowKeyMatch p a) _
        (fun x hx => by simpa [rowKeyMatch] using hx)]
    rw [findRow] at h
    rw [h]
    rfl
  · rw [updateAccessToken, findRow,
      find?_map_upd s (rowKeyMatch p a) _
        (fun x hx => by simpa [rowKeyMatch] using hx)]
    rw [findRow] at h
    rw [h]
    rfl

theorem storeToken_updateAccessToken_frame_witness :
    findRow (storeToken [exRow] id "oura" "daniel" "r2" (some "a2")
        (some 200) none 9) "oura" "daniel" =
      some { exRow with refreshTokenEnc := id "r2",
                        accessToken := some "a2", expiresAt := some 200,
                        scopes := none, updatedAt := 9 } ∧
    findRow (updateAccessToken [exRow] "oura" "daniel" "a3" 300 11)
        "oura" "daniel" =
      some { exRow with accessToken := some "a3", expiresAt := some 300,
                        updatedAt := 11 } :=
  storeToken_updateAccessToken_frame [exRow] "oura" "daniel" exRow id "r2"
    (some "a2") (some 200) none "a3" 300 9 11 rfl

/-- C3: `getDefaultToken` returns absent when no record exists for the
provider; the sole record when exactly one exists, regardless of its
account name; and with two or more records, the one named `"default"`
when present and otherwise absent — never any other record.  The
hypothesis is the store's `UNIQUE(provider, account)` constraint. -/
theorem getDefaultToken_resolution (s : Store) (p : String)
    (huniq : s.Pairwise fun r1 r2 =>
      ¬(r1.provider = r2.provider ∧ r1.account = r2.account)) :
    ((s.filter fun r => r.provider == p) = [] →
        getDefaultToken s p = none) ∧
    (∀ r, (s.filter fun r => r.provider == p) = [r] →
        getDefaultToken s p = some r) ∧
    (2 ≤ (s.filter fun r => r.provider == p).length →
      (∀ r ∈ s.filter fun x => x.provider == p, r.account = "default" →
          getDefaultToken s p = some r) ∧
      ((∀ r ∈ s.filter fun x => x.provider == p, r.account ≠ "default") →
          getDefaultToken s p = none)) := by
  have hperm := sortByAccount_perm (s.filter fun r => r.provider == p)
  refine ⟨?_, ?_, ?_⟩
  · intro h
    simp only [getDefaultToken]
    rw [h]
    simp [sortByAccount]
  · intro r h
    simp only [getDefaultToken]
    rw [h]
    simp [sortByAccount, accountInsert]
  · intro hlen
    have hlen0 : ¬(sortByAccount (s.filter fun r => r.provider == p)).length = 0 := by
      rw [hperm.length_eq]; omega
    have hlen1 : ¬(sortByAccount (s.filter fun r => r.provider == p)).length = 1 := by
      rw [hperm.length_eq]; omega
    constructor
    · intro r hmem hdef
      have hpwL :
          (s.filter fun r => r.provider == p).Pairwise fun r1 r2 =>
            ¬(r1.provider = r2.provider ∧ r1.account = r2.account) :=
        List.Pairwise.sublist (List.filter_sublist s) huniq
      have huniq' : ∀ y ∈ sortByAccount (s.filter fun r => r.provider == p),
          y.account = "default" → y = r := by
        intro y hy hydef
        have hyL : y ∈ s.filter fun r => r.provider == p :=
          hperm.mem_iff.mp hy
        by_contra hne
        have hsym : Symmetric fun r1 r2 : Row =>
            ¬(r1.provider = r2.provider ∧ r1.account = r2.account) :=
          fun _ _ hab h2 => hab ⟨h2.1.symm, h2.2.symm⟩
        have hR := List.Pairwise.forall hsym hpwL hyL hmem hne
        have hyp : y.provider = p := by
          simpa using (List.mem_filter.mp hyL).2
        have hrp : r.provider = p := by
          simpa using (List.mem_filter.mp hmem).2
        exact hR ⟨hyp.trans hrp.symm, hydef.trans hdef.symm⟩
      have hfind := find?_default_unique
        (sortByAccount (s.filter fun r => r.provider == p)) r
        (hperm.mem_iff.mpr hmem) hdef huniq'
      simp only [getDefaultToken]
      rw [if_neg hlen0, if_neg hlen1]
      exact hfind
    · intro hnone
      have hfind : (sortByAccount (s.filter fun r => r.provider == p)).find?
          (fun x => x.account == "default") = none := by
        apply List.find?_eq_none.mpr
        intro x hx
        simpa using hnone x (hperm.mem_iff.mp hx)
      simp only [getDefaultToken]
      rw [if_neg hlen0, if_neg hlen1]
      exact hfind

theorem getDefaultToken_resolution_witness :
    getDefaultToken [exRowA, exRowDefault] "oura" = some exRowDefault :=
  ((getDefaultToken_resolution [exRowA, exRowDefault] "oura"
      (by decide)).2.2 (by decide)).1 exRowDefault (by decide) rfl


/-- C5 counterexample: a handshake state created at time 0 and consumed
at time 1000 (age 1000 s > 600 s TTL), not yet swept, still yields its
`(provider, account)` binding — `consumeOAuthState` performs no age
check. -/
theorem consumeOAuthState_ignores_ttl :
    (1000 : Int) - 0 > 600 ∧
    (consumeOAuthState [exState1] "s1").1 = some ("oura", "daniel") :=
  ⟨by norm_num, rfl⟩

/-- C5 amended: a stored handshake state is consumed successfully by
`consumeOAuthState` regardless of its age; entries older than 600 s are
invalidated only when `cleanOAuthStates` sweeps them away. -/
theorem consumeOAuthState_no_ttl_check (l : OStates) (o : OState)
    (now : Int) (h : findOState l o.state = some o)
    (hold : now - o.createdAt > 600) :
    (consumeOAuthState l o.state).1 = some (o.provider, o.account) ∧
    o ∉ cleanOAuthStates l now := by
  constructor
  · rw [consumeOAuthState, h]
  · intro hmem
    have := (List.mem_filter.mp hmem).2
    simp only [Bool.not_eq_true'] at this
    rw [decide_eq_false_iff_not] at this
    omega

theorem consumeOAuthState_no_ttl_check_witness :
    (consumeOAuthState [exState2] "s2").1 = some ("gcal", "default") ∧
    exState2 ∉ cleanOAuthStates [exState2] 1000 :=
  consumeOAuthState_no_ttl_check [exState2] exState2 1000 rfl
    (by norm_num [exState2])

/-- C10: an OAuth callback for provider `q` different from the provider
the state is bound to fails with the invalid-state outcome, yet the
state is deleted by the attempt, so a subsequent callback — even for the
correct provider with the same state — also fails with the invalid-state
outcome. -/
theorem callback_wrong_provider_burns_state (l : OStates) (o : OState)
    (q : String) (h : findOState l o.state = some o)
    (hq : q ≠ o.provider) :
    (callbackVerifyState l q o.state).1 = .invalidState ∧
    findOState (callbackVerifyState l q o.state).2 o.state = none ∧
    (callbackVerifyState (callbackVerifyState l q o.state).2 o.provider
        o.state).1 = .invalidState := by
  have hgone : findOState (l.filter fun x => !(x.state == o.state))
      o.state = none := by
    apply List.find?_eq_none.mpr
    intro x hx
    have := (List.mem_filter.mp hx).2
    simp only [Bool.not_eq_true'] at this
    simp [this]
  have hpq : (o.provider == q) = false :=
    beq_eq_false_iff_ne.mpr fun h2 => hq h2.symm
  have hfirst : callbackVerifyState l q o.state =
      (.invalidState, l.filter fun x => !(x.state == o.state)) := by
    rw [callbackVerifyState, consumeOAuthState, h]
    simp [hpq]
  refine ⟨by rw [hfirst], ?_, ?_⟩
  · rw [hfirst]
    exact hgone
  · rw [hfirst, callbackVerifyState, consumeOAuthState, hgone]

theorem callback_wrong_provider_burns_state_witness :
    (callbackVerifyState [exState3] "gcal" "s3").1 = .invalidState ∧
    findOState (callbackVerifyState [exState3] "gcal" "s3").2 "s3" =
      none ∧
    (callbackVerifyState (callbackVerifyState [exState3] "gcal" "s3").2
        "oura" "s3").1 = .invalidState :=
  callback_wrong_provider_burns_state [exState3] exState3 "gcal" rfl
    (by decide)

/-- C9 counterexample: with the refresh loop started and one cycle in
flight, the next interval tick is not a no-op — it starts a second
concurrent cycle (`inFlight` becomes 2), because the `setInterval`
callback `void runRefreshCycle(store)` consults no in-flight flag. -/
theorem intervalTick_not_noop :
    intervalTick { timerActive := true, inFlight := 1 } ≠
      { timerActive := true, inFlight := 1 } ∧
    (intervalTick { timerActive := true, inFlight := 1 }).inFlight = 2 :=
  ⟨by decide, rfl⟩

/-- C9 amended: the timer does not serialize refresh cycles — a tick
that fires while cycles are in flight begins another one concurrently;
only `startRefreshLoop` itself is guarded (by the `_timer` handle)
against installing the loop twice. -/
theorem intervalTick_spawns_concurrent_cycle (st : RefreshLoopState) :
    (intervalTick st).inFlight = st.inFlight + 1 ∧
    (st.timerActive = true → startRefreshLoop st = st) := by
  constructor
  · rfl
  · intro h
    rw [startRefreshLoop, if_pos h]

theorem intervalTick_spawns_concurrent_cycle_witness :
    (intervalTick { timerActive := true, inFlight := 1 }).inFlight =
      1 + 1 ∧
    startRefreshLoop { timerActive := true, inFlight := 1 } =
      { timerActive := true, inFlight := 1 } :=
  ⟨(intervalTick_spawns_concurrent_cycle
      { timerActive := true, inFlight := 1 }).1,
   (intervalTick_spawns_concurrent_cycle
      { timerActive := true, inFlight := 1 }).2 rfl⟩

/-- C1: when the proxy path triggers a refresh for the resolved record
and the refresh exchange fails (network error or non-2xx response from
the token endpoint), the handler answers HTTP 401 `TokenRefreshFailed`
and performs no store write: the connections table — and so the stored
record with its old access token and expiry — is exactly as before the
request. -/
theorem proxy_refresh_failure_no_write
    (registry : String → Option ProviderConfig) (s : Store)
    (provider : String) (accountParam : Option String) (now : Int)
    (fetchOutcome : Option RefreshHttpResponse)
    (headers : List (String × HVal)) (cfg : ProviderConfig)
    (record : Row) (account : String)
    (hreg : registry provider = some cfg)
    (hres : resolveTokenRecord s provider accountParam =
      some (record, account))
    (htrig : shouldRefresh record.accessToken record.expiresAt now = true)
    (hfail : refreshAccessToken now fetchOutcome = .error ()) :
    proxyHandler registry s provider accountParam now fetchOutcome
        headers = (.errorResponse 401 "TokenRefreshFailed", s) ∧
    findRow (proxyHandler registry s provider accountParam now
        fetchOutcome headers).2 provider account =
      findRow s provider account := by
  have hmain : proxyHandler registry s provider accountParam now
      fetchOutcome headers = (.errorResponse 401 "TokenRefreshFailed", s) := by
    rw [proxyHandler, hreg]
    simp only [hres, htrig, hfail, if_true]
  exact ⟨hmain, by rw [hmain]⟩

theorem proxy_refresh_failure_no_write_witness :
    proxyHandler exRegistry [exRow] "oura" (some "daniel") 0
        (some exBadResp) [] =
      (.errorResponse 401 "TokenRefreshFailed", [exRow]) ∧
    findRow (proxyHandler exRegistry [exRow] "oura" (some "daniel") 0
        (some exBadResp) []).2 "oura" "daniel" =
      findRow [exRow] "oura" "daniel" :=
  proxy_refresh_failure_no_write exRegistry [exRow] "oura" (some "daniel")
    0 (some exBadResp) [] exCfg exRow "daniel" rfl rfl (by decide) rfl

/-- C2 counterexample: a record with `accessToken = ""` (present — not
absent) and `expiresAt` a full hour away is refreshed by the code
(`!tokenRecord.accessToken` is true for the empty string under JS
truthiness), although the claim's trigger condition — accessToken
absent, or expiry less than 300 s away — does not hold. -/
theorem shouldRefresh_empty_token_counterexample :
    shouldRefresh (some "") (some 3700) 100 = true ∧
    ¬((some "" : Option String) = none ∨
      ∃ t : Int, (some 3700 : Option Int) = some t ∧ t - 100 < 300) := by
  refine ⟨rfl, ?_⟩
  rintro (h | ⟨t, ht, hlt⟩)
  · exact Option.noConfusion h
  · rw [Option.some_inj] at ht
    omega

/-- C2 amended: the proxy path performs a refresh exchange iff the
record's accessToken is absent **or empty**, or its expiresAt is
non-null and less than 300 s away (`shouldRefresh` is the trigger the
handler branches on). -/
theorem shouldRefresh_iff (a : Option String) (e : Option Int)
    (now : Int) :
    shouldRefresh a e now = true ↔
      (a = none ∨ a = some "" ∨ ∃ t, e = some t ∧ t - now < 300) := by
  cases a <;> cases e <;> simp [shouldRefresh, jsTruthyStr]

/-- `o[k] = v` on an object not yet holding key `k` appends the pair. -/
lemma objSet_fresh (o : List (String × String)) (k v : String)
    (h : ∀ p ∈ o, p.1 ≠ k) : objSet o k v = o ++ [(k, v)] := by
  rw [objSet, if_neg]
  intro hany
  obtain ⟨p, hp, he⟩ := List.any_eq_true.mp hany
  exact h p hp (by simpa using he)

/-- A header that survives the projection is not named `authorization`
(its lowercase name is outside the exclusion set, which contains
`authorization`). -/
lemma headerProjection_key_ne_auth (kv : String × HVal)
    (p : String × String) (h : headerProjection kv = some p) :
    p.1 ≠ "authorization" := by
  rw [headerProjection] at h
  by_cases hex : HOP_BY_HOP_HEADERS.contains (lowerStr kv.1) = true
  · rw [if_pos hex] at h
    cases h
  · rw [if_neg hex] at h
    have hkey : p.1 = kv.1 := by
      cases hv : kv.2 <;> rw [hv] at h <;> first
        | (cases h; rfl)
        | cases h
    intro hcontra
    apply hex
    rw [← hkey, hcontra]
    decide

/-- The header-copy loop of the proxy handler, run over entries with
pairwise-distinct names none of which is already in the accumulator,
appends exactly the surviving projections. -/
lemma copyLoop_append (inbound : List (String × HVal))
    (acc : List (String × String))
    (hfresh : ∀ kv ∈ inbound, ∀ p ∈ acc, p.1 ≠ kv.1)
    (hnodup : (inbound.map Prod.fst).Nodup) :
    inbound.foldl copyHeaderStep acc =
      acc ++ inbound.filterMap headerProjection := by
  induction inbound generalizing acc with
  | nil => simp
  | cons kv rest ih =>
    rw [List.foldl_cons]
    rw [List.map_cons, List.nodup_cons] at hnodup
    have htail : ∀ kv2 ∈ rest, ∀ p ∈ acc, p.1 ≠ kv2.1 :=
      fun kv2 hkv2 p hp => hfresh kv2 (List.mem_cons_of_mem kv hkv2) p hp
    by_cases hex : HOP_BY_HOP_HEADERS.contains (lowerStr kv.1) = true
    · rw [show copyHeaderStep acc kv = acc from by
          rw [copyHeaderStep, if_pos hex],
        List.filterMap_cons_none (by rw [headerProjection, if_pos hex])]
      exact ih acc htail hnodup.2
    · have hfreshk : ∀ p ∈ acc, p.1 ≠ kv.1 :=
        hfresh kv (List.mem_cons_self kv rest)
      have hkeyfresh : ∀ v : String,
          rest.foldl copyHeaderStep (acc ++ [(kv.1, v)]) =
            (acc ++ [(kv.1, v)]) ++ rest.filterMap headerProjection := by
        intro v
        refine ih (acc ++ [(kv.1, v)]) ?_ hnodup.2
        intro kv2 hkv2 p hp
        rcases List.mem_append.mp hp with hpa | hpb
        · exact htail kv2 hkv2 p hpa
        · rcases List.mem_singleton.mp hpb with rfl
          intro hc
          exact hnodup.1 (hc ▸ List.mem_map_of_mem Prod.fst hkv2)
      cases hv : kv.2 with
      | str v =>
        rw [show copyHeaderStep acc kv = objSet acc kv.1 v from by
              rw [copyHeaderStep, if_neg hex, hv],
          List.filterMap_cons_some
            (show headerProjection kv = some (kv.1, v) from by
              rw [headerProjection, if_neg hex, hv]),
          objSet_fresh acc kv.1 v hfreshk, hkeyfresh v]
        simp
      | arr l =>
        rw [show copyHeaderStep acc kv =
              objSet acc kv.1 (String.intercalate ", " l) from by
              rw [copyHeaderStep, if_neg hex, hv],
          List.filterMap_cons_some
            (show headerProjection kv =
                some (kv.1, String.intercalate ", " l) from by
              rw [headerProjection, if_neg hex, hv]),
          objSet_fresh acc kv.1 (String.intercalate ", " l) hfreshk,
          hkeyfresh (String.intercalate ", " l)]
        simp
      | undef =>
        rw [show copyHeaderStep acc kv = acc from by
              rw [copyHeaderStep, if_neg hex, hv],
          List.filterMap_cons_none
            (by rw [headerProjection, if_neg hex, hv])]
        exact ih acc htail hnodup.2

/-- C7: for inbound headers with pairwise-distinct names (JS object
keys), the forwarded header map equals the inbound headers minus the
fixed hop-by-hop exclusion set (matched case-insensitively), with
`authorization` then set to `Bearer <accessToken>`; in particular every
`authorization` entry of the forwarded map carries that bearer value
and never the caller's own credential. -/
theorem forward_headers_spec (inbound : List (String × HVal))
    (tok : String) (hnodup : (inbound.map Prod.fst).Nodup) :
    buildForwardHeaders inbound tok = specForwardHeaders inbound tok ∧
    ∀ v, ("authorization", v) ∈ buildForwardHeaders inbound tok →
      v = "Bearer " ++ tok := by
  have hmain : buildForwardHeaders inbound tok =
      specForwardHeaders inbound tok := by
    rw [buildForwardHeaders,
      copyLoop_append inbound [] (by simp) hnodup, List.nil_append,
      specForwardHeaders]
    apply objSet_fresh
    intro p hp
    obtain ⟨kv, _, hkv⟩ := List.mem_filterMap.mp hp
    exact headerProjection_key_ne_auth kv p hkv
  refine ⟨hmain, ?_⟩
  intro v hv
  rw [hmain, specForwardHeaders] at hv
  rcases List.mem_append.mp hv with hleft | hright
  · obtain ⟨kv, _, hkv⟩ := List.mem_filterMap.mp hleft
    exact absurd rfl (headerProjection_key_ne_auth kv _ hkv)
  · rcases List.mem_singleton.mp hright with h
    exact congrArg Prod.snd h

theorem forward_headers_spec_witness :
    buildForwardHeaders exHeaders "tok123" =
      specForwardHeaders exHeaders "tok123" ∧
    ∀ v, ("authorization", v) ∈ buildForwardHeaders exHeaders "tok123" →
      v = "Bearer " ++ "tok123" :=
  forward_headers_spec exHeaders "tok123" (by decide)

/-! ## Cipher lemmas -/

lemma hexDigitVal_hexDigitChar (n : Nat) (h : n < 16) :
    hexDigitVal (hexDigitChar n) = some n := by
  have hall : ∀ m, m < 16 → hexDigitVal (hexDigitChar m) = some m := by
    decide
  exact hall n h

lemma hexDigitChar_ne_colon (n : Nat) : hexDigitChar n ≠ ':' := by
  by_cases h : n < 16
  · have hall : ∀ m, m < 16 → hexDigitChar m ≠ ':' := by decide
    exact hall n h
  · rw [hexDigitChar, List.getD_eq_default]
    · decide
    · have hlen : ("0123456789abcdef".data).length = 16 := by decide
      omega

lemma hexEncode_nil : hexEncode [] = [] := rfl

lemma hexEncode_cons (b : Nat) (bs : List Nat) :
    hexEncode (b :: bs) =
      hexDigitChar (b / 16) :: hexDigitChar (b % 16) :: hexEncode bs := by
  simp [hexEncode, hexEncodeByte]

lemma hexEncode_length (bs : List Nat) :
    (hexEncode bs).length = 2 * bs.length := by
  induction bs with
  | nil => rfl
  | cons b bs ih =>
    rw [hexEncode_cons]
    simp only [List.length_cons, ih]
    omega

lemma colon_not_mem_hexEncode (bs : List Nat) : ':' ∉ hexEncode bs := by
  induction bs with
  | nil => simp [hexEncode_nil]
  | cons b bs ih =>
    rw [hexEncode_cons]
    intro hmem
    rcases List.mem_cons.mp hmem with h | hmem2
    · exact hexDigitChar_ne_colon (b / 16) h.symm
    · rcases List.mem_cons.mp hmem2 with h | hmem3
      · exact hexDigitChar_ne_colon (b % 16) h.symm
      · exact ih hmem3

lemma hexDecode_hexEncode (bs : List Nat) (h : ∀ b ∈ bs, b < 256) :
    hexDecode (hexEncode bs) = bs := by
  induction bs with
  | nil => rfl
  | cons b bs ih =>
    have hb : b < 256 := h b (List.mem_cons_self b bs)
    have hpair : hexPair (hexDigitChar (b / 16)) (hexDigitChar (b % 16)) =
        some b := by
      rw [hexPair, hexDigitVal_hexDigitChar (b / 16) (by omega),
        hexDigitVal_hexDigitChar (b % 16) (by omega)]
      simp only
      congr 1
      omega
    rw [hexEncode_cons, hexDecode, hpair]
    rw [ih fun x hx => h x (List.mem_cons_of_mem b hx)]

lemma splitOnColon_ne_nil (l : List Char) : splitOnColon l ≠ [] := by
  induction l with
  | nil => simp [splitOnColon]
  | cons c rest ih =>
    rw [splitOnColon]
    by_cases h : c = ':'
    · simp [h]
    · rw [if_neg h]
      cases hs : splitOnColon rest with
      | nil => exact absurd hs ih
      | cons a t => simp [consHead]

lemma splitOnColon_no_colon (l : List Char) (h : ':' ∉ l) :
    splitOnColon l = [l] := by
  induction l with
  | nil => rfl
  | cons c rest ih =>
    have hc : ¬c = ':' := fun hcc => h (hcc ▸ List.mem_cons_self c rest)
    rw [splitOnColon, if_neg hc,
      ih fun hm => h (List.mem_cons_of_mem c hm)]
    rfl

lemma splitOnColon_append (xs ys : List Char) (h : ':' ∉ xs) :
    splitOnColon (xs ++ ':' :: ys) = xs :: splitOnColon ys := by
  induction xs with
  | nil => simp [splitOnColon]
  | cons c xs ih =>
    have hc : ¬c = ':' := fun hcc => h (hcc ▸ List.mem_cons_self c xs)
    rw [List.cons_append, splitOnColon, if_neg hc,
      ih fun hm => h (List.mem_cons_of_mem c hm)]
    rfl

lemma xorBytes_cancel (p ks : List Nat) (h : ks.length = p.length) :
    xorBytes (xorBytes p ks) ks = p := by
  induction p generalizing ks with
  | nil => simp [xorBytes]
  | cons a p ih =>
    cases ks with
    | nil => simp at h
    | cons k ks =>
      simp only [xorBytes, List.zipWith_cons_cons] at *
      rw [Nat.xor_assoc, Nat.xor_self, Nat.xor_zero,
        ih ks (by simpa using h)]

lemma xorBytes_length (p ks : List Nat) :
    (xorBytes p ks).length = min p.length ks.length := by
  simp [xorBytes]

lemma xorBytes_lt (p ks : List Nat) (hp : ∀ b ∈ p, b < 256)
    (hk : ∀ b ∈ ks, b < 256) : ∀ b ∈ xorBytes p ks, b < 256 := by
  induction p generalizing ks with
  | nil => simp [xorBytes]
  | cons a p ih =>
    cases ks with
    | nil => simp [xorBytes]
    | cons k ks =>
      intro b hb
      simp only [xorBytes, List.zipWith_cons_cons, List.mem_cons] at hb
      rcases hb with rfl | hb
      · have h256 : (256 : Nat) = 2 ^ 8 := by norm_num
        rw [h256]
        exact Nat.xor_lt_two_pow
          (h256 ▸ hp a (List.mem_cons_self a p))
          (h256 ▸ hk k (List.mem_cons_self k ks))
      · exact ih ks (fun x hx => hp x (List.mem_cons_of_mem a hx))
          (fun x hx => hk x (List.mem_cons_of_mem k hx)) b hb

lemma char_toNat_valid (c : Char) :
    c.toNat < 0xD800 ∨ (0xDFFF < c.toNat ∧ c.toNat < 0x110000) := c.valid

lemma char_toNat_lt (c : Char) : c.toNat < 0x110000 := by
  rcases char_toNat_valid c with h | ⟨_, h⟩
  · omega
  · exact h

lemma utf8EncodeChar_lt (n : Nat) (h : n < 0x110000) :
    ∀ b ∈ utf8EncodeChar n, b < 256 := by
  intro b hb
  rw [utf8EncodeChar] at hb
  split_ifs at hb <;> simp only [List.mem_cons, List.not_mem_nil,
    or_false] at hb <;> rcases hb with rfl | hb <;> try omega

lemma utf8Encode_nil : utf8Encode [] = [] := rfl

lemma utf8Encode_cons (c : Char) (cs : List Char) :
    utf8Encode (c :: cs) = utf8EncodeChar c.toNat ++ utf8Encode cs := by
  simp [utf8Encode]

lemma utf8Encode_lt (cs : List Char) : ∀ b ∈ utf8Encode cs, b < 256 := by
  induction cs with
  | nil => simp [utf8Encode_nil]
  | cons c cs ih =>
    intro b hb
    rw [utf8Encode_cons] at hb
    rcases List.mem_append.mp hb with h | h
    · exact utf8EncodeChar_lt c.toNat (char_toNat_lt c) b h
    · exact ih b h

lemma utf8Step_one (b : Nat) (rest : List Nat) (h : leadClass b = 1) :
    utf8Step b rest = (Char.ofNat b, rest) := by
  rw [utf8Step.eq_def, h]
  rfl

lemma utf8Step_two (b b1 : Nat) (rest : List Nat) (h : leadClass b = 2) :
    utf8Step b (b1 :: rest) = (decode2 b b1, rest) := by
  rw [utf8Step.eq_def, h]
  rfl

lemma utf8Step_three (b b1 b2 : Nat) (rest : List Nat)
    (h : leadClass b = 3) :
    utf8Step b (b1 :: b2 :: rest) = (decode3 b b1 b2, rest) := by
  rw [utf8Step.eq_def, h]
  rfl

lemma utf8Step_four (b b1 b2 b3 : Nat) (rest : List Nat)
    (h : leadClass b = 4) :
    utf8Step b (b1 :: b2 :: b3 :: rest) = (decode4 b b1 b2 b3, rest) := by
  rw [utf8Step.eq_def, h]
  rfl

/-- Decoding one encoded scalar from the front of a byte stream yields
the character back and leaves the remainder untouched. -/
lemma utf8Step_encodeChar (c : Char) (rest : List Nat) :
    ∃ b t, utf8EncodeChar c.toNat = b :: t ∧
      utf8Step b (t ++ rest) = (c, rest) := by
  have hv := char_toNat_valid c
  have hlt := char_toNat_lt c
  rcases Nat.lt_or_ge c.toNat 0x80 with h1 | h1
  · refine ⟨c.toNat, [], by rw [utf8EncodeChar, if_pos h1], ?_⟩
    rw [List.nil_append,
      utf8Step_one c.toNat rest (by rw [leadClass, if_pos h1]),
      Char.ofNat_toNat]
  · rcases Nat.lt_or_ge c.toNat 0x800 with h2 | h2
    · refine ⟨0xC0 + c.toNat / 64, [0x80 + c.toNat % 64],
        by rw [utf8EncodeChar, if_neg (by omega), if_pos h2], ?_⟩
      rw [List.cons_append, List.nil_append,
        utf8Step_two _ _ rest
          (by rw [leadClass, if_neg (by omega), if_pos (by omega)]),
        decode2, if_pos (by simp only [isCont]; norm_num; omega)]
      have hval : decode2Val (0xC0 + c.toNat / 64) (0x80 + c.toNat % 64) =
          c.toNat := by
        rw [decode2Val]
        omega
      rw [hval, Char.ofNat_toNat]
    · rcases Nat.lt_or_ge c.toNat 0x10000 with h3 | h3
      · refine ⟨0xE0 + c.toNat / 4096,
          [0x80 + c.toNat / 64 % 64, 0x80 + c.toNat % 64],
          by rw [utf8EncodeChar, if_neg (by omega), if_neg (by omega),
            if_pos h3], ?_⟩
        rw [List.cons_append, List.cons_append, List.nil_append,
          utf8Step_three _ _ _ rest
            (by rw [leadClass, if_neg (by omega), if_neg (by omega),
              if_pos (by omega)]),
          decode3, if_pos (by simp only [isCont]; norm_num; omega)]
        have hval : decode3Val (0xE0 + c.toNat / 4096)
            (0x80 + c.toNat / 64 % 64) (0x80 + c.toNat % 64) = c.toNat := by
          rw [decode3Val]
          omega
        rw [hval, if_pos (by omega), Char.ofNat_toNat]
      · refine ⟨0xF0 + c.toNat / 262144,
          [0x80 + c.toNat / 4096 % 64, 0x80 + c.toNat / 64 % 64,
           0x80 + c.toNat % 64],
          by rw [utf8EncodeChar, if_neg (by omega), if_neg (by omega),
            if_neg (by omega)], ?_⟩
        rw [List.cons_append, List.cons_append, List.cons_append,
          List.nil_append,
          utf8Step_four _ _ _ _ rest
            (by rw [leadClass, if_neg (by omega), if_neg (by omega),
              if_neg (by omega), if_pos (by omega)]),
          decode4, if_pos (by simp only [isCont]; norm_num; omega)]
        have hval : decode4Val (0xF0 + c.toNat / 262144)
            (0x80 + c.toNat / 4096 % 64) (0x80 + c.toNat / 64 % 64)
            (0x80 + c.toNat % 64) = c.toNat := by
          rw [decode4Val]
          omega
        rw [hval, if_pos (by omega), Char.ofNat_toNat]

/-- UTF-8 round trip on character lists. -/
lemma utf8Decode_utf8Encode (cs : List Char) :
    utf8Decode (utf8Encode cs) = cs := by
  induction cs with
  | nil => rw [utf8Encode_nil, utf8Decode]
  | cons c cs ih =>
    obtain ⟨b, t, hbt, hstep⟩ := utf8Step_encodeChar c (utf8Encode cs)
    rw [utf8Encode_cons, hbt, List.cons_append, utf8Decode, hstep, ih]

/-- Decrypting an honestly-built envelope `"<iv_hex>:<ct+tag_hex>"`
recovers the GCM plaintext bytes. -/
lemma decrypt_envelope (G : GcmCore) (key iv ct tg : List Nat)
    (hiv : iv.length = 12) (hivlt : ∀ b ∈ iv, b < 256)
    (hctlt : ∀ b ∈ ct, b < 256) (htg : tg = G.tag key iv ct)
    (htglt : ∀ b ∈ tg, b < 256) (htglen : tg.length = 16) :
    decrypt G key ⟨hexEncode iv ++ ':' :: hexEncode (ct ++ tg)⟩ =
      .ok ⟨utf8Decode (xorBytes ct (G.keystream key iv ct.length))⟩ := by
  have hformat : ¬(hexEncode iv = [] ∨ hexEncode (ct ++ tg) = []) := by
    rintro (h | h)
    · have hl := hexEncode_length iv
      rw [h, hiv] at hl
      simp at hl
    · have hl := hexEncode_length (ct ++ tg)
      rw [h, List.length_append, htglen] at hl
      simp at hl
  have hivne : iv ≠ [] := by
    intro h
    rw [h] at hiv
    simp at hiv
  have hdatalt : ∀ b ∈ ct ++ tg, b < 256 := by
    intro b hb
    rcases List.mem_append.mp hb with h | h
    · exact hctlt b h
    · exact htglt b h
  have hjsub : jsSubarrayStart (ct.length + 16)
      (((ct.length + 16 : Nat) : Int) - 16) = ct.length := by
    rw [jsSubarrayStart, if_neg (by push_cast; omega)]
    omega
  simp only [decrypt]
  rw [splitOnColon_append _ _ (colon_not_mem_hexEncode iv),
    splitOnColon_no_colon _ (colon_not_mem_hexEncode (ct ++ tg))]
  simp only [List.getD_cons_zero, List.getD_cons_succ]
  rw [if_neg hformat]
  rw [hexDecode_hexEncode iv hivlt, hexDecode_hexEncode (ct ++ tg) hdatalt]
  rw [List.length_append, htglen, hjsub]
  rw [List.take_left, List.drop_left]
  rw [if_pos ⟨hivne, htg⟩]

/-- C4: for every plaintext string (including the empty string and any
unicode content) and every 12-byte nonce, decrypting the encryption
under the same 32-byte key returns the plaintext exactly. -/
theorem decrypt_encrypt_roundtrip (G : GcmCore) (key iv : List Nat)
    (p : String) (hkey : key.length = 32) (hiv : iv.length = 12)
    (hivlt : ∀ b ∈ iv, b < 256) :
    decrypt G key (encrypt G key iv p) = .ok p := by
  have hpb := utf8Encode_lt p.data
  have hkslen := G.keystream_length key iv (utf8Encode p.data).length
  have hctlen : (xorBytes (utf8Encode p.data)
      (G.keystream key iv (utf8Encode p.data).length)).length =
      (utf8Encode p.data).length := by
    rw [xorBytes_length, hkslen]
    omega
  have henc : encrypt G key iv p =
      ⟨hexEncode iv ++ ':' :: hexEncode
        (xorBytes (utf8Encode p.data)
          (G.keystream key iv (utf8Encode p.data).length) ++
         G.tag key iv (xorBytes (utf8Encode p.data)
          (G.keystream key iv (utf8Encode p.data).length)))⟩ := rfl
  rw [henc,
    decrypt_envelope G key iv _ _ hiv hivlt
      (xorBytes_lt _ _ hpb (G.keystream_lt key iv _)) rfl
      (G.tag_lt key iv _) (G.tag_length key iv _),
    hctlen,
    xorBytes_cancel _ _ hkslen, utf8Decode_utf8Encode]

theorem decrypt_encrypt_roundtrip_witness :
    decrypt gcmZero (List.replicate 32 0)
      (encrypt gcmZero (List.replicate 32 0) (List.replicate 12 0)
        "token-α") = .ok "token-α" :=
  decrypt_encrypt_roundtrip gcmZero (List.replicate 32 0)
    (List.replicate 12 0) "token-α" (by simp) (by simp)
    (by
      intro b hb
      have := List.eq_of_mem_replicate hb
      omega)

/-- `decrypt` raises the format error exactly when the first or second
segment of the `':'` split is missing or empty (the code checks only
`!ivHex || !dataHex` on the first two segments of the split). -/
lemma decrypt_format_char (G : GcmCore) (key : List Nat) (s : String) :
    decrypt G key s = .error .format ↔
      ((splitOnColon s.data).getD 0 [] = [] ∨
       (splitOnColon s.data).getD 1 [] = []) := by
  by_cases h : (splitOnColon s.data).getD 0 [] = [] ∨
      (splitOnColon s.data).getD 1 [] = []
  · simp only [decrypt]
    rw [if_pos h]
    exact iff_of_true rfl h
  · simp only [decrypt]
    rw [if_neg h]
    refine iff_of_false ?_ h
    intro hcontra
    split at hcontra <;> simp_all

/-- Shape of a JS `split(':')`: either the input is colon-free and is
returned whole, or it decomposes at its first colon. -/
lemma splitOnColon_shape (l : List Char) :
    (splitOnColon l = [l] ∧ ':' ∉ l) ∨
    ∃ a t, l = a ++ ':' :: t ∧ ':' ∉ a ∧
      splitOnColon l = a :: splitOnColon t := by
  induction l with
  | nil => exact Or.inl ⟨rfl, by simp⟩
  | cons c rest ih =>
    by_cases hc : c = ':'
    · right
      refine ⟨[], rest, by rw [hc]; rfl, by simp, ?_⟩
      rw [splitOnColon, if_pos hc]
    · rcases ih with ⟨hsplit, hnc⟩ | ⟨a, t, heq, hna, hsplit⟩
      · left
        refine ⟨?_, ?_⟩
        · rw [splitOnColon, if_neg hc, hsplit]
          rfl
        · intro hm
          rcases List.mem_cons.mp hm with h | h
          · exact hc h.symm
          · exact hnc h
      · right
        refine ⟨c :: a, t, by rw [heq]; rfl, ?_, ?_⟩
        · intro hm
          rcases List.mem_cons.mp hm with h | h
          · exact hc h.symm
          · exact hna h
        · rw [splitOnColon, if_neg hc, hsplit]
          rfl

/-- C8 counterexample: `"a:b:c"` splits into three segments, yet
`decrypt` does not raise the format error on it — the destructuring
`const [ivHex, dataHex] = stored.split(':')` takes the first two
segments (both non-empty here) and the failure happens later, inside
the crypto library (integrity), not as `FormatError`. -/
theorem decrypt_three_segments_not_format :
    (splitOnColon ("a:b:c" : String).data).length = 3 ∧
    decrypt gcmZero (List.replicate 32 0) "a:b:c" = .error .integrity ∧
    (Except.error DecryptError.integrity :
      Except DecryptError String) ≠ .error .format := by
  refine ⟨by decide, rfl, ?_⟩
  intro h
  exact DecryptError.noConfusion (Except.error.inj h)

/-- C8 amended: `decrypt` fails with the format error exactly when the
envelope does not begin with two non-empty (colon-free) segments
separated by `':'`; extra segments after the second and non-hex
characters are not format-checked (they fail later, if at all, with a
different error). -/
theorem decrypt_format_iff (G : GcmCore) (key : List Nat) (s : String) :
    decrypt G key s = .error .format ↔ ¬hasTwoNonemptySegments s := by
  rw [decrypt_format_char]
  constructor
  · rintro hdisj ⟨a, b, rest, heq, ha, hb, hna, hnb, hrest⟩
    have hsplit : splitOnColon s.data = a :: splitOnColon (b ++ rest) := by
      rw [heq]
      exact splitOnColon_append a (b ++ rest) hna
    have hsplit2 : ∃ t2, splitOnColon (b ++ rest) = b :: t2 := by
      rcases hrest with rfl | ⟨r, rfl⟩
      · rw [List.append_nil, splitOnColon_no_colon b hnb]
        exact ⟨[], rfl⟩
      · rw [splitOnColon_append b r hnb]
        exact ⟨splitOnColon r, rfl⟩
    obtain ⟨t2, ht2⟩ := hsplit2
    rw [hsplit, ht2] at hdisj
    simp only [List.getD_cons_zero, List.getD_cons_succ] at hdisj
    rcases hdisj with h | h
    · exact ha h
    · exact hb h
  · intro hno
    by_contra hdisj
    push_neg at hdisj
    obtain ⟨h0, h1⟩ := hdisj
    apply hno
    rcases splitOnColon_shape s.data with ⟨hsp, _⟩ | ⟨a, t, heq, hna, hsp⟩
    · rw [hsp] at h1
      simp at h1
    · rcases splitOnColon_shape t with ⟨hspt, hnct⟩ |
        ⟨b, r, heqt, hnb, hspt⟩
      · refine ⟨a, t, [], by rw [List.append_nil]; exact heq, ?_, ?_,
          hna, hnct, Or.inl rfl⟩
        · rw [hsp] at h0
          simpa using h0
        · rw [hsp, hspt] at h1
          simpa using h1
      · refine ⟨a, b, ':' :: r, by rw [heq, heqt], ?_, ?_,
          hna, hnb, Or.inr ⟨r, rfl⟩⟩
        · rw [hsp] at h0
          simpa using h0
        · rw [hsp, hspt] at h1
          simpa using h1

end Perpetua
